import Mathlib

/-
Verification of the GEL2 runtime memory-management core (src/trunk/internal.cpp).

The development embeds, as executable Lean definitions, the pieces of the
runtime that the claims concern:

- the advisory reference count of `_Object` (`_PtrInc`, `_PtrDec`,
  `_DeferDestroy`, `_CheckDeferredDestroy`, and the destructor assert),
- the real reference count of `class String` (`_RefInc`, `_Dec`, `_RefDec`)
  together with `GlobalString`,
- the owning pointer `_Own<T>` and the dual pointer `_OwnRef<T>`,
- the arena allocator `Pool` with its blocks, the bump allocator
  `Pool::Alloc`, `Pool::NewBlock`, and the two-pass teardown
  `Pool::Destroy` driven from `~Pool`.

Build flags of the C source appear as explicit boolean parameters:
`ms` stands for MEMORY_SAFE (the diagnostic build), `es` for EXTRA_SAFE,
and `ex` for the process-wide `_exiting` flag.  Machine pointers are
modelled as natural numbers (0 is the null pointer) and the C `int`
reference counts as unbounded `Int`; no arithmetic in the modelled code
comes near overflow.  A fatal `_assert` (which prints and calls `_exit(1)`,
never returning to the caller) is modelled by an error result; a returned
`Res.fatal` value means the process terminated with that diagnostic.
-/

/-- Diagnostics passed to the fatal `_assert` entry point of the runtime. -/
inductive Fatal
  /-- message: outstanding reference to destroyed object (in `~_Object`) -/
  | outstandingRefDestroyed
  /-- message: outstanding reference to destroyed pool-allocated object
      (in `_Object::_CheckDeferredDestroy`) -/
  | outstandingRefPoolObject
  /-- message: internal ref count failure (in `_Object::_PtrDec`) -/
  | internalRefCount
  /-- message: internal string ref count failure (in `String::_Dec`) -/
  | internalStringRefCount
deriving DecidableEq

/-- Result of a runtime operation: either a value, or a fatal diagnostic
    (the C `_assert` prints the message and calls `_exit(1)`, so a
    `Res.fatal` value means the process terminated with no error return). -/
inductive Res (α : Type)
  | ok (a : α)
  | fatal (e : Fatal)
deriving DecidableEq

/-- High bits marking an object whose destruction is running in two phases:
    `const int PendingDestroy = 0x70000000`. -/
def PendingDestroy : Int := 0x70000000

/-- State of the `_Object` base: the advisory reference count `count_`
    (present in MEMORY_SAFE builds and initialised to 0). -/
structure Obj where
  count : Int
deriving DecidableEq

/-- Constructor state `_Object() : count_(0)`. -/
def Obj.new : Obj := {count := 0}

/-- Embeds `_Object::_PtrInc`: `++count_` under MEMORY_SAFE, no-op otherwise. -/
def Obj.ptrInc (ms : Bool) (o : Obj) : Obj :=
  if ms then {count := o.count + 1} else o

/-- Embeds `_Object::_PtrDec`: under MEMORY_SAFE, first (EXTRA_SAFE only)
    assert `count_ > 0`, then `--count_`; outside MEMORY_SAFE a no-op. -/
def Obj.ptrDec (ms es : Bool) (o : Obj) : Res Obj :=
  if ms then
    if es ∧ ¬(0 < o.count) then Res.fatal Fatal.internalRefCount
    else Res.ok {count := o.count - 1}
  else Res.ok o

/-- Embeds `_Object::_DeferDestroy`: `count_ |= PendingDestroy`. -/
def Obj.deferDestroy (o : Obj) : Obj :=
  {count := Int.lor o.count PendingDestroy}

/-- Embeds the destructor check of `~_Object` (MEMORY_SAFE builds):
    `_assert(_exiting || count_ == 0 || (count_ & PendingDestroy), ...)`. -/
def Obj.dtorAssert (ms ex : Bool) (o : Obj) : Res Unit :=
  if ms ∧ ¬(ex = true ∨ o.count = 0 ∨ Int.land o.count PendingDestroy ≠ 0) then
    Res.fatal Fatal.outstandingRefDestroyed
  else Res.ok ()

/-- Embeds `_Object::_CheckDeferredDestroy` (compiled only under MEMORY_SAFE):
    `_assert(_exiting || count_ == PendingDestroy, ...)`. -/
def Obj.checkDeferredDestroy (ex : Bool) (o : Obj) : Res Unit :=
  if ex = true ∨ o.count = PendingDestroy then Res.ok ()
  else Res.fatal Fatal.outstandingRefPoolObject

/-- State of a `class String` value: the real reference count `count_`
    (shared with the `_Object` count slot in MEMORY_SAFE builds, a separate
    field otherwise, initialised to 0 in both) and a tally of how many times
    `delete this` has run on the value (0 or 1 in a correct execution). -/
structure Str where
  count : Int
  destroyed : Nat
deriving DecidableEq

/-- Constructor state of `String(const wchar_t *)`: count 0, not destroyed. -/
def Str.new : Str := {count := 0, destroyed := 0}

/-- Embeds `String::_RefInc`: `++count_`. -/
def Str.refInc (s : Str) : Str :=
  {s with count := s.count + 1}

/-- Embeds `String::_Dec`: the EXTRA_SAFE assert `count_ > 0`, then
    `--count_` (no destruction here). -/
def Str.dec (es : Bool) (s : Str) : Res Str :=
  if es ∧ ¬(0 < s.count) then Res.fatal Fatal.internalStringRefCount
  else Res.ok {s with count := s.count - 1}

/-- The plain-build path of `String::_Dec` (EXTRA_SAFE off): `--count_`. -/
def Str.decU (s : Str) : Str :=
  {s with count := s.count - 1}

/-- Embeds `String::_RefDec`: `_Dec(); if (!count_) delete this;` with
    EXTRA_SAFE off.  The deletion is immediate and synchronous. -/
def Str.refDecU (s : Str) : Str :=
  let t := Str.decU s
  if t.count = 0 then {t with destroyed := t.destroyed + 1} else t

/-- Embeds `String::_RefDec` with the EXTRA_SAFE flag explicit. -/
def Str.refDec (es : Bool) (s : Str) : Res Str :=
  match Str.dec es s with
  | Res.ok t => Res.ok (if t.count = 0 then {t with destroyed := t.destroyed + 1} else t)
  | Res.fatal e => Res.fatal e

/-- Embeds `String::_OwnSub` (the virtual hook `_OwnSub` on strings):
    `_Dec()`, a decrement with no destruction, on the EXTRA_SAFE-off path. -/
def Str.ownSub (s : Str) : Str := Str.decU s

/-- Embeds the constructor body of `GlobalString(const wchar_t *)`:
    the `String` constructor leaves the count at 0 and the body runs
    `_RefInc()`, so every global string starts with count 1. -/
def GlobalString.new : Str := Str.refInc Str.new

/-- The global `Object::object_string_`, the ToString placeholder text. -/
def objectString : Str := GlobalString.new

/-- The global `String::empty_string_`, the empty string. -/
def emptyString : Str := GlobalString.new

/-- The global `Bool::true_string_`. -/
def trueString : Str := GlobalString.new

/-- The global `Bool::false_string_`. -/
def falseString : Str := GlobalString.new

/-- State of an owning pointer `_Own<T>`: the held handle `p_`
    (a machine pointer, 0 = null). -/
structure _Own where
  p : Nat
deriving DecidableEq

/-- Handles destroyed by a C++ `delete p` expression: deleting the null
    pointer is a no-op, otherwise exactly the pointee is destroyed. -/
def deleteLog (p : Nat) : List Nat :=
  if p = 0 then [] else [p]

/-- Embeds the constructor `_Own(T *p) { p_ = p; }`. -/
def _Own.mk0 (p : Nat) : _Own := {p := p}

/-- Embeds `_Own::operator=`: `if (p != p_) { delete p_; p_ = p; }`.
    Returns the new pointer state and the handles destroyed. -/
def _Own.assign (o : _Own) (p : Nat) : _Own × List Nat :=
  if p ≠ o.p then ({p := p}, deleteLog o.p) else (o, [])

/-- Embeds the destructor `~_Own() { delete p_; }`: the handles destroyed. -/
def _Own.dtor (o : _Own) : List Nat :=
  deleteLog o.p

/-- Embeds `_Own::Take`: `T *p = p_; p_ = 0; return p;`.  No delete runs. -/
def _Own.take (o : _Own) : Nat × _Own :=
  (o.p, {p := 0})

/-- State of a dual owning pointer `_OwnRef<T>`: the held handle `p_`. -/
structure _OwnRef where
  p : Nat
deriving DecidableEq

/-- Embeds the `_OwnRef` constructor for a string pointee:
    `p_ = p; if (p_) p_->_OwnRefInc();` where the virtual hook
    `String::_OwnRefInc` is `_RefInc`.  The second component is the new
    state of the (unique, candidate) string value. -/
def _OwnRef.mkStr (p : Nat) (v : Str) : _OwnRef × Str :=
  ({p := p}, if p ≠ 0 then Str.refInc v else v)

/-- Embeds `_OwnRef::Take` for a string pointee:
    `T *p = p_; if (p) p->_OwnSub(); p_ = 0; return p;` where
    `String::_OwnSub` is `_Dec`, a decrement that never destroys. -/
def _OwnRef.takeStr (o : _OwnRef) (v : Str) : Nat × _OwnRef × Str :=
  (o.p, {p := 0}, if o.p ≠ 0 then Str.ownSub v else v)

/-- Embeds the destructor `~_OwnRef() { if (p_) p_->_OwnRefDec(); }` for a
    string pointee, where `String::_OwnRefDec` is `_RefDec`. -/
def _OwnRef.dtorStr (o : _OwnRef) (v : Str) : Str :=
  if o.p ≠ 0 then Str.refDecU v else v

/-- Total size in bytes of one pool block: `Pool::BlockSize = 8192`. -/
def BlockSize : Nat := 8192

/-- Free-space threshold of the allocator: `Pool::Threshold = 256`. -/
def Threshold : Nat := 256

/-- Offset of `PoolBlock::data_` within a block: the two leading pointer
    fields `prev_` and `first_` on the 64-bit target, 16 bytes. -/
def headerSize : Nat := 16

/-- Size of the placeholder record `_Own<Object>` (one pointer member,
    no vtable) on the 64-bit target: `sizeof(_Own<Object>) = 8`. -/
def sizeofOwn : Nat := 8

/-- A record constructed inside a pool block.  `serial` numbers the
    allocations of the pool in creation order (0, 1, 2, ...). -/
inductive PRec
  /-- an object of footprint `sz`, placement-constructed by the caller of
      `Pool::Alloc` in the returned space; such objects carry the virtual
      `_Destroy1` / `_Destroy2` protocol of the GEL2_OBJECT macro, each
      returning `sizeof` of the class, that is `sz` -/
  | obj (serial : Nat) (sz : Nat)
  /-- the `_Own<Object>` placeholder that `Pool::Alloc` itself
      placement-constructs for an individually heap-allocated value `id`
      (the line `new (Alloc(sizeof(_Own<Object>))) _Own<Object>((Object *) d)`) -/
  | ownPh (serial : Nat) (id : Nat)
deriving DecidableEq

/-- Footprint of a record inside its block. -/
def PRec.size : PRec → Nat
  | .obj _ sz => sz
  | .ownPh _ _ => sizeofOwn

/-- Creation serial of a record. -/
def PRec.serial : PRec → Nat
  | .obj s _ => s
  | .ownPh s _ => s

/-- Whether the record is an `Object` providing the virtual
    `_Destroy1` / `_Destroy2` destruction protocol that the teardown scan
    of `Pool::Destroy` dispatches.  Objects built with the GEL2_OBJECT
    macro do; the `_Own<Object>` placeholder is a plain non-virtual class,
    derives from nothing, and has neither member. -/
def PRec.isObj : PRec → Bool
  | .obj _ _ => true
  | .ownPh _ _ => false

/-- One `PoolBlock`: `first` is the offset of `first_` within the block
    (the block occupies offsets 0 to BlockSize, its payload starting at
    `headerSize`); `recs` lists the records laid out from offset `first`
    upward, so the head of `recs` is the most recently allocated record. -/
structure PoolBlock where
  first : Nat
  recs : List PRec
deriving DecidableEq

/-- A block as `Pool::NewBlock` creates it: `b->first_ = d + BlockSize`,
    no records yet. -/
def freshBlock : PoolBlock := {first := BlockSize, recs := []}

/-- The arena: `top_` is the head of `blocks` (most recently created
    first, linked through `prev_`).  `nextSerial` numbers allocations;
    `nextEscape` names individually heap-allocated values. -/
structure Pool where
  blocks : List PoolBlock
  nextSerial : Nat
  nextEscape : Nat
deriving DecidableEq

/-- Embeds the constructor `Pool() { top_ = 0; NewBlock(); }`. -/
def Pool.init : Pool := {blocks := [freshBlock], nextSerial := 0, nextEscape := 0}

/-- Embeds `Pool::NewBlock`: push a fresh block on the block list. -/
def Pool.newBlock (P : Pool) : Pool :=
  {P with blocks := freshBlock :: P.blocks}

/-- Outcome of one `Pool::Alloc` call: the returned pointer lies inside
    the top block (bump allocation), or the value was individually
    heap-allocated (`new char[n]`) under the name `id`. -/
inductive AllocOutcome
  | pooled
  | escaped (id : Nat)
deriving DecidableEq

/-- The records of the pool in the order the teardown scan of
    `Pool::Destroy` visits them: blocks from most recently created to
    oldest, and within a block from offset `first_` upward. -/
def Pool.records (P : Pool) : List PRec :=
  (P.blocks.map PoolBlock.recs).flatten

/-- Embeds `Pool::Alloc` (fuelled; the recursion of the source is at most
    two calls deep, see `Pool.Alloc`).  The parameter `mk` is the record
    that the caller placement-constructs in the returned space, as a
    function of the serial the allocation receives; `Pool::Alloc` itself
    recurses with the `_Own<Object>` placeholder as `mk`.

    Source, line by line: `free = top_->first_ - top_->data_`;
    if `n <= free` return `top_->first_ -= n` (bump);
    else if `free < Threshold` then `NewBlock(); return Alloc(n)`;
    else `d = new char[n]; new (Alloc(sizeof(_Own<Object>))) _Own<Object>((Object *) d); return d`.

    `none` covers the fatal assert on an empty block list (a pool being
    destroyed) and fuel exhaustion (unreachable from well-formed states). -/
def Pool.allocAux : Nat → Pool → Nat → (Nat → PRec) → Option (Pool × AllocOutcome)
  | 0, _, _, _ => none
  | fuel + 1, P, n, mkRec =>
    match P.blocks with
    | [] => none
    | b :: rest =>
      let free := b.first - headerSize
      if n ≤ free then
        some ({ blocks := {first := b.first - n, recs := mkRec P.nextSerial :: b.recs} :: rest,
                nextSerial := P.nextSerial + 1,
                nextEscape := P.nextEscape }, AllocOutcome.pooled)
      else if free < Threshold then
        Pool.allocAux fuel P.newBlock n mkRec
      else
        match Pool.allocAux fuel {P with nextEscape := P.nextEscape + 1} sizeofOwn
                (fun s => PRec.ownPh s P.nextEscape) with
        | some (P2, _) => some (P2, AllocOutcome.escaped P.nextEscape)
        | none => none

/-- Embeds `Pool::Alloc` for a request of `n` bytes whose caller
    placement-constructs a GEL2 object of footprint `n` in the returned
    space.  Fuel 3 dominates the source recursion: a retry after
    `NewBlock` and, inside the escape path, the placeholder allocation. -/
def Pool.Alloc (P : Pool) (n : Nat) : Option (Pool × AllocOutcome) :=
  Pool.allocAux 3 P n (fun s => PRec.obj s n)

/-- Runs a sequence of allocation requests against a pool. -/
def Pool.runAllocs : Pool → List Nat → Option Pool
  | P, [] => some P
  | P, n :: ns =>
    match Pool.Alloc P n with
    | some (P2, _) => Pool.runAllocs P2 ns
    | none => none

/-- Events of the teardown of a pool (`Pool::Destroy`, both passes). -/
inductive DEvent
  /-- the virtual call `o->_Destroy1()` ran on the record with this serial
      (first pass: the record defers destruction of its value and runs the
      finalizer logic, without releasing raw storage) -/
  | d1 (serial : Nat)
  /-- the non-virtual call `o->_CheckDeferredDestroy()` ran on the record
      with this serial (second pass: verify the count settled at the
      PendingDestroy sentinel, a fatal assert otherwise) -/
  | check (serial : Nat)
  /-- the virtual call `o->_Destroy2()` ran on the record with this serial
      (second pass: release raw storage owned by the record) -/
  | d2 (serial : Nat)
  /-- `delete b` ran on the block at this position of the block list
      (0 = most recently created), releasing the backing storage of every
      record laid out in the block -/
  | freeBlock (idx : Nat)
deriving DecidableEq

/-- The walk of one block in `Pool::Destroy`:
    `char *p = b->first_; while (p < block_end) { ... p += o->_DestroyN(); }`.
    Starting at offset `p`, each visited record is paired with its offset
    and the walk advances by the footprint the destroy call returns.
    The record list is the actual content of the block; on a well-formed
    block the walk visits exactly the records and stops at `stop`. -/
def scanBlockAux : List PRec → Nat → Nat → List (Nat × PRec)
  | [], _, _ => []
  | r :: rs, p, stop =>
    if p < stop then (p, r) :: scanBlockAux rs (p + r.size) stop else []

/-- The offsets at which consecutive records are laid out, starting at `p`. -/
def offsets : Nat → List PRec → List Nat
  | _, [] => []
  | p, r :: rs => p :: offsets (p + r.size) rs

/-- The records the destroy walk of one block visits, in visit order. -/
def PoolBlock.scan (b : PoolBlock) : List PRec :=
  (scanBlockAux b.recs b.first BlockSize).map Prod.snd

/-- First-pass treatment of one record under the scan of `Pool::Destroy`:
    the scan performs the virtual call `o->_Destroy1()` on the object at
    the current offset.  A caller-constructed GEL2 object carries that
    virtual and finalizes.  The `_Own<Object>` placeholder has no vtable
    and no `_Destroy1` member at all, so the dispatch through its leading
    bytes (which hold the `Object *p_` field, not a vtable pointer) has no
    defined result: `none`. -/
def recPass1 : PRec → Option (List DEvent)
  | .obj s _ => some [DEvent.d1 s]
  | .ownPh _ _ => none

/-- Second-pass treatment of one record: the non-virtual
    `o->_CheckDeferredDestroy()` followed by the virtual `o->_Destroy2()`.
    Both calls assume the record is an `Object`; the `_Own<Object>`
    placeholder is not one, so again no defined result. -/
def recPass2 : PRec → Option (List DEvent)
  | .obj s _ => some [DEvent.check s, DEvent.d2 s]
  | .ownPh _ _ => none

/-- First-pass events of a record list (the inner while loop of
    `Pool::Destroy` with `pass1` true). -/
def recsPass1 : List PRec → Option (List DEvent)
  | [] => some []
  | r :: rs =>
    match recPass1 r, recsPass1 rs with
    | some e, some rest => some (e ++ rest)
    | _, _ => none

/-- Second-pass events of a record list (the inner while loop of
    `Pool::Destroy` with `pass1` false). -/
def recsPass2 : List PRec → Option (List DEvent)
  | [] => some []
  | r :: rs =>
    match recPass2 r, recsPass2 rs with
    | some e, some rest => some (e ++ rest)
    | _, _ => none

/-- The outer block loop of `Pool::Destroy(top, true)` (first pass),
    walking blocks from the most recently created to the oldest; `i` is
    the position of the current block.  After scanning a block, the pass
    frees it only when `_exiting` or the build is not MEMORY_SAFE
    (`if (_exiting || !pass1) delete b`). -/
def pass1Aux (ms ex : Bool) : Nat → List PoolBlock → Option (List DEvent)
  | _, [] => some []
  | i, b :: bs =>
    match recsPass1 b.scan, pass1Aux ms ex (i + 1) bs with
    | some es, some rest =>
        some (es ++ (if ms = false ∨ ex = true then [DEvent.freeBlock i] else []) ++ rest)
    | _, _ => none

/-- The outer block loop of `Pool::Destroy(top, false)` (second pass,
    MEMORY_SAFE and not exiting): scan each block with
    `_CheckDeferredDestroy` / `_Destroy2`, then `delete b`. -/
def pass2Aux : Nat → List PoolBlock → Option (List DEvent)
  | _, [] => some []
  | i, b :: bs =>
    match recsPass2 b.scan, pass2Aux (i + 1) bs with
    | some es, some rest => some (es ++ DEvent.freeBlock i :: rest)
    | _, _ => none

/-- First destruction pass over a pool. -/
def Pool.pass1 (ms ex : Bool) (P : Pool) : Option (List DEvent) :=
  pass1Aux ms ex 0 P.blocks

/-- Second destruction pass over a pool. -/
def Pool.pass2 (P : Pool) : Option (List DEvent) :=
  pass2Aux 0 P.blocks

/-- Embeds `~Pool`: detach the block list, run the first pass, and in a
    MEMORY_SAFE build that is not exiting run the second pass over the
    same blocks in the same order. -/
def Pool.teardown (ms ex : Bool) (P : Pool) : Option (List DEvent) :=
  match Pool.pass1 ms ex P, (if ms = true ∧ ex = false then Pool.pass2 P else some []) with
  | some t1, some t2 => some (t1 ++ t2)
  | _, _ => none

/-- Well-formed block: the payload starts at or after the header, the
    records fill the block exactly from `first` to `BlockSize`, and every
    record has a positive footprint (every C++ object has sizeof at least
    one byte). -/
def PoolBlock.wfB (b : PoolBlock) : Prop :=
  headerSize ≤ b.first ∧
  b.first + (b.recs.map PRec.size).sum = BlockSize ∧
  ∀ r ∈ b.recs, 0 < r.size

instance (b : PoolBlock) : Decidable b.wfB :=
  inferInstanceAs (Decidable (headerSize ≤ b.first ∧
    b.first + (b.recs.map PRec.size).sum = BlockSize ∧ ∀ r ∈ b.recs, 0 < r.size))

/-- Invariant of every pool reachable by allocation from `Pool.init`:
    a live top block exists, all blocks are well formed, the creation
    serials strictly decrease along the scan order (most recent record
    first), and all serials are below the next one to hand out. -/
def Pool.Inv (P : Pool) : Prop :=
  P.blocks ≠ [] ∧
  (∀ b ∈ P.blocks, b.wfB) ∧
  List.Pairwise (fun a b => b < a) (P.records.map PRec.serial) ∧
  (∀ s ∈ P.records.map PRec.serial, s < P.nextSerial)

theorem offsets_length (p : Nat) (rs : List PRec) : (offsets p rs).length = rs.length := by
  induction rs generalizing p with
  | nil => rfl
  | cons r rs ih => simp [offsets, ih]

/-- On a block whose records fill it exactly and have positive footprints,
    the destroy walk visits every record once, in layout order, pairing
    each with its offset. -/
theorem scanBlockAux_filled (rs : List PRec) (p stop : Nat)
    (hpos : ∀ r ∈ rs, 0 < r.size)
    (hfill : p + (rs.map PRec.size).sum = stop) :
    scanBlockAux rs p stop = (offsets p rs).zip rs := by
  induction rs generalizing p with
  | nil => simp [scanBlockAux, offsets]
  | cons r rs ih =>
    have hr : 0 < r.size := hpos r (by simp)
    have hlt : p < stop := by
      simp only [List.map_cons, List.sum_cons] at hfill
      omega
    have hfill2 : (p + r.size) + (rs.map PRec.size).sum = stop := by
      simp only [List.map_cons, List.sum_cons] at hfill
      omega
    simp only [scanBlockAux, offsets, if_pos hlt, List.zip_cons_cons]
    exact congrArg _ (ih (p + r.size) (fun x hx => hpos x (by simp [hx])) hfill2)

/-- On a well-formed block the destroy walk visits exactly the records. -/
theorem PoolBlock.scan_eq (b : PoolBlock) (hb : b.wfB) : b.scan = b.recs := by
  obtain ⟨h1, h2, h3⟩ := hb
  unfold PoolBlock.scan
  rw [scanBlockAux_filled b.recs b.first BlockSize h3 h2]
  exact List.map_snd_zip _ _ (le_of_eq (offsets_length _ _).symm)

theorem Pool.records_mk (blocks : List PoolBlock) (ns ne : Nat) :
    Pool.records {blocks := blocks, nextSerial := ns, nextEscape := ne} =
      (blocks.map PoolBlock.recs).flatten := rfl

/-- `Pool::Alloc` preserves the pool invariant, for any record maker that
    respects the serial it is given and the size requested. -/
theorem Pool.allocAux_inv (fuel : Nat) :
    ∀ (P : Pool) (n : Nat) (mkRec : Nat → PRec) (P2 : Pool) (out : AllocOutcome),
    P.Inv → 0 < n →
    (∀ s, (mkRec s).serial = s) → (∀ s, (mkRec s).size = n) →
    Pool.allocAux fuel P n mkRec = some (P2, out) → P2.Inv := by
  induction fuel with
  | zero =>
    intro P n mkRec P2 out _ _ _ _ h
    exact absurd h (by simp [Pool.allocAux])
  | succ fuel ih =>
    intro P n mkRec P2 out hInv hn hser hsz h
    obtain ⟨hne, hwf, hpw, hbd⟩ := hInv
    rw [Pool.allocAux] at h
    cases hb : P.blocks with
    | nil => rw [hb] at h; simp at h
    | cons b rest =>
      rw [hb] at h
      simp only at h
      have hbw : b.wfB := hwf b (by rw [hb]; exact List.mem_cons_self _ _)
      obtain ⟨hbw1, hbw2, hbw3⟩ := hbw
      have hrecP : P.records = b.recs ++ (rest.map PoolBlock.recs).flatten := by
        simp [Pool.records, hb]
      by_cases h1 : n ≤ b.first - headerSize
      · rw [if_pos h1] at h
        injection h with h2
        injection h2 with hP2 hout
        subst hP2
        have hrecs2 : Pool.records { blocks := {first := b.first - n, recs := mkRec P.nextSerial :: b.recs} :: rest, nextSerial := P.nextSerial + 1, nextEscape := P.nextEscape } = mkRec P.nextSerial :: P.records := by
          simp [Pool.records, hb]
        refine ⟨by simp, ?_, ?_, ?_⟩
        · intro b2 hb2
          rcases List.mem_cons.mp hb2 with hh | ht
        
          · subst hh
            refine ⟨?_, ?_, ?_⟩
            · show headerSize ≤ b.first - n
              omega
            · show (b.first - n) + ((mkRec P.nextSerial :: b.recs).map PRec.size).sum = BlockSize
              simp only [List.map_cons, List.sum_cons, hsz]
              omega
            · intro r hr
              rcases List.mem_cons.mp hr with hh2 | ht2
              · rw [hh2, hsz]; exact hn
              · exact hbw3 r ht2
          · exact hwf b2 (by rw [hb]; exact List.mem_cons_of_mem _ ht)
        · rw [hrecs2]
          simp only [List.map_cons, List.pairwise_cons]
          exact ⟨fun y hy => by rw [hser]; exact hbd y hy, hpw⟩
        · rw [hrecs2]
          simp only [List.map_cons]
          intro s hs
          rcases List.mem_cons.mp hs with hh | ht
          · rw [hh, hser]; omega
          · have := hbd s ht; omega
      · rw [if_neg h1] at h
        by_cases h2 : b.first - headerSize < Threshold
        · rw [if_pos h2] at h
          have hnr : (Pool.newBlock P).records = P.records := by
            simp [Pool.records, Pool.newBlock, freshBlock]
          refine ih _ n mkRec P2 out ⟨by simp [Pool.newBlock], ?_, ?_, ?_⟩ hn hser hsz h
          · intro b2 hb2
            simp only [Pool.newBlock, List.mem_cons] at hb2
            rcases hb2 with hh | ht
            · subst hh
              exact ⟨by decide, by simp [freshBlock], by simp [freshBlock]⟩
            · exact hwf b2 ht
          · rw [hnr]; exact hpw
          · rw [hnr]; exact fun s hs => hbd s hs
        · rw [if_neg h2] at h
          cases hrec : Pool.allocAux fuel { blocks := b :: rest, nextSerial := P.nextSerial, nextEscape := P.nextEscape + 1 } sizeofOwn (fun s => PRec.ownPh s P.nextEscape) with
          | none => rw [hrec] at h; simp at h
          | some pr =>
            rw [hrec] at h
            obtain ⟨P2m, out2⟩ := pr
            simp only [Option.some.injEq, Prod.mk.injEq] at h
            obtain ⟨hP2, _⟩ := h
            subst hP2
            have hrec3 : Pool.records { blocks := b :: rest, nextSerial := P.nextSerial, nextEscape := P.nextEscape + 1 } = P.records := by
              simp [Pool.records, hb]
            refine ih _ sizeofOwn (fun s => PRec.ownPh s P.nextEscape) P2m out2
              ⟨by simp, ?_, ?_, ?_⟩ (by decide) (fun s => rfl) (fun s => rfl) hrec
            · intro b2 hb2
              exact hwf b2 (by rw [hb]; exact hb2)
            · rw [hrec3]; exact hpw
            · rw [hrec3]; exact fun s hs => hbd s hs

theorem Pool.init_Inv : Pool.init.Inv := by
  refine ⟨by simp [Pool.init], ?_, ?_, ?_⟩
  · intro b hb
    simp only [Pool.init, List.mem_singleton] at hb
    subst hb
    exact ⟨by decide, by simp [freshBlock], by simp [freshBlock]⟩
  · simp [Pool.records, Pool.init, freshBlock]
  · simp [Pool.records, Pool.init, freshBlock]

/-- Every pool reached by a sequence of positive-size allocations from a
    pool satisfying the invariant satisfies it as well. -/
theorem Pool.runAllocs_inv : ∀ (sizes : List Nat) (P P2 : Pool),
    P.Inv → (∀ n ∈ sizes, 0 < n) → Pool.runAllocs P sizes = some P2 → P2.Inv := by
  intro sizes
  induction sizes with
  | nil =>
    intro P P2 h _ hr
    simp only [Pool.runAllocs, Option.some.injEq] at hr
    exact hr ▸ h
  | cons n ns ih =>
    intro P P2 hInv hpos hr
    rw [Pool.runAllocs] at hr
    cases ha : Pool.Alloc P n with
    | none => rw [ha] at hr; simp at hr
    | some pr =>
      rw [ha] at hr
      obtain ⟨Pm, out⟩ := pr
      exact ih Pm P2
        (Pool.allocAux_inv 3 P n (fun s => PRec.obj s n) Pm out hInv
          (hpos n (by simp)) (fun s => rfl) (fun s => rfl) ha)
        (fun m hm => hpos m (by simp [hm])) hr

theorem recsPass1_obj (rs : List PRec) (hobj : ∀ r ∈ rs, r.isObj = true) :
    recsPass1 rs = some (rs.map (fun r => DEvent.d1 r.serial)) := by
  induction rs with
  | nil => rfl
  | cons r rs ih =>
    have hr := hobj r (by simp)
    cases r with
    | obj s sz =>
      rw [recsPass1, recPass1, ih (fun x hx => hobj x (by simp [hx]))]
      simp [PRec.serial]
    | ownPh s id => simp [PRec.isObj] at hr

theorem recsPass2_obj (rs : List PRec) (hobj : ∀ r ∈ rs, r.isObj = true) :
    recsPass2 rs =
      some ((rs.map (fun r => [DEvent.check r.serial, DEvent.d2 r.serial])).flatten) := by
  induction rs with
  | nil => rfl
  | cons r rs ih =>
    have hr := hobj r (by simp)
    cases r with
    | obj s sz =>
      rw [recsPass2, recPass2, ih (fun x hx => hobj x (by simp [hx]))]
      simp [PRec.serial]
    | ownPh s id => simp [PRec.isObj] at hr

/-- In a MEMORY_SAFE, non-exiting build, the first pass over well-formed
    blocks of protocol-carrying records produces exactly one `_Destroy1`
    event per record, in scan order, and frees no block. -/
theorem pass1Aux_obj (bs : List PoolBlock)
    (hwf : ∀ b ∈ bs, b.wfB) (hobj : ∀ b ∈ bs, ∀ r ∈ b.recs, r.isObj = true) :
    ∀ i, pass1Aux true false i bs =
      some (((bs.map PoolBlock.recs).flatten).map (fun r => DEvent.d1 r.serial)) := by
  induction bs with
  | nil => intro i; rfl
  | cons b rest ih =>
    intro i
    have hscan : b.scan = b.recs := PoolBlock.scan_eq b (hwf b (by simp))
    rw [pass1Aux, hscan, recsPass1_obj b.recs (hobj b (by simp)),
      ih (fun x hx => hwf x (by simp [hx])) (fun x hx => hobj x (by simp [hx])) (i + 1)]
    simp

/-- Second-pass events of one block scan: per record, the sentinel check
    then the storage-releasing `_Destroy2`. -/
def pass2Events (rs : List PRec) : List DEvent :=
  (rs.map (fun r => [DEvent.check r.serial, DEvent.d2 r.serial])).flatten

/-- The event list the second pass produces over a list of blocks starting
    at position `i`: per block, its record events then the block free. -/
def pass2Shape : Nat → List PoolBlock → List DEvent
  | _, [] => []
  | i, b :: bs => pass2Events b.recs ++ DEvent.freeBlock i :: pass2Shape (i + 1) bs

theorem pass2Aux_obj (bs : List PoolBlock)
    (hwf : ∀ b ∈ bs, b.wfB) (hobj : ∀ b ∈ bs, ∀ r ∈ b.recs, r.isObj = true) :
    ∀ i, pass2Aux i bs = some (pass2Shape i bs) := by
  induction bs with
  | nil => intro i; rfl
  | cons b rest ih =>
    intro i
    have hscan : b.scan = b.recs := PoolBlock.scan_eq b (hwf b (by simp))
    rw [pass2Aux, hscan, recsPass2_obj b.recs (hobj b (by simp)),
      ih (fun x hx => hwf x (by simp [hx])) (fun x hx => hobj x (by simp [hx])) (i + 1)]
    rfl

/-- The second pass performs no `_Destroy1` call. -/
theorem pass2Shape_no_d1 (bs : List PoolBlock) :
    ∀ i, ∀ e ∈ pass2Shape i bs, ∀ s, e ≠ DEvent.d1 s := by
  induction bs with
  | nil => intro i e he; simp [pass2Shape] at he
  | cons b rest ih =>
    intro i e he s
    rw [pass2Shape] at he
    rcases List.mem_append.mp he with h1 | h2
    · unfold pass2Events at h1
      rcases List.mem_flatten.mp h1 with ⟨l, hl, hel⟩
      rcases List.mem_map.mp hl with ⟨r, _, hr⟩
      subst hr
      rcases List.mem_cons.mp hel with hh | ht
      · subst hh; simp
      · rcases List.mem_cons.mp ht with hh2 | ht2
        · subst hh2; simp
        · simp at ht2
    · rcases List.mem_cons.mp h2 with hh | ht
      · subst hh; simp
      · exact ih (i + 1) e ht s

theorem pass2Events_split (rs : List PRec) (r : PRec) (hr : r ∈ rs) :
    ∃ u v, pass2Events rs = u ++ DEvent.check r.serial :: v := by
  induction rs with
  | nil => simp at hr
  | cons x xs ih =>
    rcases List.mem_cons.mp hr with hh | ht
    · subst hh
      exact ⟨[], DEvent.d2 r.serial :: pass2Events xs, by simp [pass2Events]⟩
    · obtain ⟨u, v, huv⟩ := ih ht
      refine ⟨DEvent.check x.serial :: DEvent.d2 x.serial :: u, v, ?_⟩
      simp [pass2Events] at huv ⊢
      rw [huv]

/-- Within the second pass, the sentinel check on every record of a block
    happens before that block is freed. -/
theorem pass2Shape_check_before_free (bs : List PoolBlock) :
    ∀ i i0 b, bs.get? i0 = some b → ∀ r ∈ b.recs,
      ∃ u v, pass2Shape i bs = u ++ DEvent.check r.serial :: v ∧
        DEvent.freeBlock (i + i0) ∈ v := by
  induction bs with
  | nil => intro i i0 b hget; simp at hget
  | cons x xs ih =>
    intro i i0 b hget r hr
    cases i0 with
    | zero =>
      simp only [List.get?_cons_zero, Option.some.injEq] at hget
      subst hget
      obtain ⟨u, v, huv⟩ := pass2Events_split x.recs r hr
      refine ⟨u, v ++ DEvent.freeBlock i :: pass2Shape (i + 1) xs, ?_, ?_⟩
      · rw [pass2Shape, huv]; simp
      · simp
    | succ k =>
      simp only [List.get?_cons_succ] at hget
      obtain ⟨u, v, huv, hv⟩ := ih (i + 1) k b hget r hr
      refine ⟨pass2Events x.recs ++ DEvent.freeBlock i :: u, v, ?_, ?_⟩
      · rw [pass2Shape, huv]; simp
      · rw [show i + (k + 1) = (i + 1) + k by omega]; exact hv

/-- Case 1 of `Pool::Alloc`: the request fits in the top block, so the
    high-water mark drops by exactly `n` and the record lands at its top. -/
theorem Pool.Alloc_fits (P : Pool) (b : PoolBlock) (rest : List PoolBlock) (n : Nat)
    (hb : P.blocks = b :: rest) (h1 : n ≤ b.first - headerSize) :
    Pool.Alloc P n = some ({ blocks := {first := b.first - n, recs := PRec.obj P.nextSerial n :: b.recs} :: rest, nextSerial := P.nextSerial + 1, nextEscape := P.nextEscape }, AllocOutcome.pooled) := by
  rw [Pool.Alloc, Pool.allocAux, hb]
  simp only
  rw [if_pos h1]

/-- Case 2 of `Pool::Alloc`: the request does not fit and little free
    space remains, so a fresh block is pushed and the request retried and
    served there by a bump (it fits the data area of a fresh block). -/
theorem Pool.Alloc_newBlock_fits (P : Pool) (b : PoolBlock) (rest : List PoolBlock) (n : Nat)
    (hb : P.blocks = b :: rest) (h1 : b.first - headerSize < n)
    (h2 : b.first - headerSize < Threshold) (h3 : n ≤ BlockSize - headerSize) :
    Pool.Alloc P n = some ({ blocks := {first := BlockSize - n, recs := [PRec.obj P.nextSerial n]} :: b :: rest, nextSerial := P.nextSerial + 1, nextEscape := P.nextEscape }, AllocOutcome.pooled) := by
  rw [Pool.Alloc, Pool.allocAux, hb]
  simp only
  rw [if_neg (by omega), if_pos h2]
  rw [Pool.allocAux]
  simp only [Pool.newBlock, hb, freshBlock]
  rw [if_pos h3]

/-- Case 3 of `Pool::Alloc`: the request does not fit, little free space
    remains, and the request exceeds even the data area of a fresh block;
    the retry in the fresh block escapes to an individual heap allocation
    and places the `_Own<Object>` placeholder in the fresh block. -/
theorem Pool.Alloc_newBlock_escapes (P : Pool) (b : PoolBlock) (rest : List PoolBlock) (n : Nat)
    (hb : P.blocks = b :: rest) (h1 : b.first - headerSize < n)
    (h2 : b.first - headerSize < Threshold) (h3 : BlockSize - headerSize < n) :
    Pool.Alloc P n = some ({ blocks := {first := BlockSize - sizeofOwn, recs := [PRec.ownPh P.nextSerial P.nextEscape]} :: b :: rest, nextSerial := P.nextSerial + 1, nextEscape := P.nextEscape + 1 }, AllocOutcome.escaped P.nextEscape) := by
  rw [Pool.Alloc, Pool.allocAux, hb]
  simp only
  rw [if_neg (by omega), if_pos h2]
  rw [Pool.allocAux]
  simp only [Pool.newBlock, hb, freshBlock]
  rw [if_neg (by omega), if_neg (by decide)]
  rw [Pool.allocAux]
  simp only
  rw [if_pos (by decide)]

/-- Case 4 of `Pool::Alloc`: the request does not fit but at least
    `Threshold` bytes remain free, so the value is individually
    heap-allocated at once and the `_Own<Object>` placeholder is
    bump-allocated into the current block. -/
theorem Pool.Alloc_escapes (P : Pool) (b : PoolBlock) (rest : List PoolBlock) (n : Nat)
    (hb : P.blocks = b :: rest) (h1 : b.first - headerSize < n)
    (h2 : Threshold ≤ b.first - headerSize) :
    Pool.Alloc P n = some ({ blocks := {first := b.first - sizeofOwn, recs := PRec.ownPh P.nextSerial P.nextEscape :: b.recs} :: rest, nextSerial := P.nextSerial + 1, nextEscape := P.nextEscape + 1 }, AllocOutcome.escaped P.nextEscape) := by
  rw [Pool.Alloc, Pool.allocAux, hb]
  simp only
  rw [if_neg (by omega), if_neg (by omega)]
  rw [Pool.allocAux]
  simp only
  rw [if_pos (by simp only [sizeofOwn, Threshold] at h2 ⊢; omega)]

/-- Claim C5: in a diagnostic (MEMORY_SAFE) build that is not exiting,
    destroying a value whose advisory count is nonzero and not marked
    with the PendingDestroy bits trips the fatal assert of `~_Object`
    (the process terminates, no error is returned); and constructing a
    NonOwning `_Ptr` to a value raises its advisory count by one, so a
    live NonOwning reference makes the count nonzero. -/
theorem c5_dangling_fatal (c : Int) (hnz : c ≠ 0)
    (hpd : Int.land c PendingDestroy = 0) :
    Obj.dtorAssert true false {count := c} = Res.fatal Fatal.outstandingRefDestroyed ∧
    (∀ o : Obj, (Obj.ptrInc true o).count = o.count + 1) ∧
    Obj.dtorAssert true false (Obj.ptrInc true Obj.new) =
      Res.fatal Fatal.outstandingRefDestroyed := by
  refine ⟨?_, fun o => rfl, by decide⟩
  rw [Obj.dtorAssert, if_pos]
  constructor
  · rfl
  · intro h
    rcases h with h | h | h
    · exact absurd h (by decide)
    · exact hnz h
    · exact h hpd

theorem c5_witness :
    Obj.dtorAssert true false {count := 1} = Res.fatal Fatal.outstandingRefDestroyed :=
  (c5_dangling_fatal 1 (by decide) (by decide)).1

/-- Claim C7: `_Own` assignment destroys the held value exactly when one
    is held and the new handle differs, then stores the new handle;
    assigning the held handle changes nothing and destroys nothing; the
    destructor destroys the held value exactly when the handle is
    non-null. -/
theorem c7_own_assign_dtor (o : _Own) (p : Nat) :
    (o.p ≠ 0 → p ≠ o.p → _Own.assign o p = ({p := p}, [o.p])) ∧
    (o.p = 0 → p ≠ o.p → _Own.assign o p = ({p := p}, [])) ∧
    (p = o.p → _Own.assign o p = (o, [])) ∧
    (o.p ≠ 0 → _Own.dtor o = [o.p]) ∧
    (o.p = 0 → _Own.dtor o = []) := by
  refine ⟨?_, ?_, ?_, ?_, ?_⟩
  · intro h1 h2
    rw [_Own.assign, if_pos h2, deleteLog, if_neg h1]
  · intro h1 h2
    rw [_Own.assign, if_pos h2, deleteLog, if_pos h1]
  · intro h1
    rw [_Own.assign, if_neg (by simpa using h1)]
  · intro h1
    rw [_Own.dtor, deleteLog, if_neg h1]
  · intro h1
    rw [_Own.dtor, deleteLog, if_pos h1]

theorem c7_witness :
    _Own.assign {p := 5} 7 = ({p := 7}, [5]) ∧
    _Own.assign {p := 0} 7 = ({p := 7}, []) ∧
    _Own.assign {p := 5} 5 = ({p := 5}, []) ∧
    _Own.dtor {p := 5} = [5] ∧
    _Own.dtor {p := 0} = [] :=
  ⟨(c7_own_assign_dtor {p := 5} 7).1 (by decide) (by decide),
   (c7_own_assign_dtor {p := 0} 7).2.1 (by decide) (by decide),
   (c7_own_assign_dtor {p := 5} 5).2.2.1 (by decide),
   (c7_own_assign_dtor {p := 5} 7).2.2.2.1 (by decide),
   (c7_own_assign_dtor {p := 0} 7).2.2.2.2 (by decide)⟩

/-- Claim C9 counterexample: in a diagnostic (MEMORY_SAFE) build without
    EXTRA_SAFE, a decrement at count zero is not a fatal check: both the
    advisory `_PtrDec` and the real string `_Dec` simply drive the count
    to minus one. -/
theorem c9_counterexample :
    Obj.ptrDec true false {count := 0} = Res.ok {count := -1} ∧
    Str.dec false {count := 0, destroyed := 0} = Res.ok {count := -1, destroyed := 0} ∧
    (-1 : Int) < 0 := by decide

/-- Claim C9 (amended): the never-negative fatal check is gated on the
    EXTRA_SAFE build flag, not on the diagnostic flag alone: with
    EXTRA_SAFE on, a decrement from a positive count stays at or above
    zero, and a decrement that would go below zero is a fatal check
    instead, for both the advisory object count and the real string
    count. -/
theorem c9_extra_safe_nonneg (o : Obj) (s : Str) :
    (0 < o.count →
      Obj.ptrDec true true o = Res.ok {count := o.count - 1} ∧ 0 ≤ o.count - 1) ∧
    (o.count ≤ 0 → Obj.ptrDec true true o = Res.fatal Fatal.internalRefCount) ∧
    (0 < s.count →
      Str.dec true s = Res.ok {s with count := s.count - 1} ∧ 0 ≤ s.count - 1) ∧
    (s.count ≤ 0 → Str.dec true s = Res.fatal Fatal.internalStringRefCount) := by
  refine ⟨?_, ?_, ?_, ?_⟩
  · intro h
    constructor
    · rw [Obj.ptrDec, if_pos rfl, if_neg (by simp [h])]
    · omega
  · intro h
    rw [Obj.ptrDec, if_pos rfl, if_pos (by constructor <;> [rfl; omega])]
  · intro h
    constructor
    · rw [Str.dec, if_neg (by simp [h])]
    · omega
  · intro h
    rw [Str.dec, if_pos (by constructor <;> [rfl; omega])]

theorem c9_witness :
    Obj.ptrDec true true {count := 0} = Res.fatal Fatal.internalRefCount ∧
    Str.dec true {count := 1, destroyed := 0} = Res.ok {count := 0, destroyed := 0} :=
  ⟨(c9_extra_safe_nonneg {count := 0} {count := 1, destroyed := 0}).2.1 (by decide),
   ((c9_extra_safe_nonneg {count := 0} {count := 1, destroyed := 0}).2.2.1 (by decide)).1⟩

/-- A handle event on a SharedCounted (string) value: a copy construction
    or construction from the value (runs `_RefInc`), or a handle
    destruction or reassignment away from the value (runs `_RefDec`). -/
inductive RefOp
  | inc
  | dec
deriving DecidableEq

/-- One handle event applied to the value state. -/
def Str.stepOp (s : Str) : RefOp → Str
  | RefOp.inc => Str.refInc s
  | RefOp.dec => Str.refDecU s

/-- A sequence of handle events applied to the value state. -/
def Str.runOps (s : Str) : List RefOp → Str
  | [] => s
  | op :: ops => Str.runOps (Str.stepOp s op) ops

/-- The number of occurrences of one event kind. -/
def countOp (o : RefOp) : List RefOp → Nat
  | [] => 0
  | x :: xs => (if x = o then 1 else 0) + countOp o xs

/-- `String::_RefDec` with EXTRA_SAFE off never faults and acts as the
    unchecked decrement-and-maybe-delete. -/
theorem Str.refDec_false (s : Str) : Str.refDec false s = Res.ok (Str.refDecU s) := by
  simp [Str.refDec, Str.dec, Str.refDecU, Str.decU]

theorem Str.refDecU_count (s : Str) : (Str.refDecU s).count = s.count - 1 := by
  rw [Str.refDecU]
  split <;> rfl

theorem Str.refDecU_destroyed (s : Str) :
    (Str.refDecU s).destroyed = s.destroyed + (if s.count - 1 = 0 then 1 else 0) := by
  rw [Str.refDecU]
  split <;> simp_all [Str.decU]

theorem Str.runOps_spec (ops : List RefOp) : ∀ (s : Str),
    0 < s.count →
    (∀ k < ops.length, 0 < (Str.runOps s (ops.take k)).count) →
    (Str.runOps s ops).count = s.count + countOp RefOp.inc ops - countOp RefOp.dec ops ∧
    (Str.runOps s ops).destroyed =
      s.destroyed + (if (Str.runOps s ops).count = 0 then 1 else 0) ∧
    ((Str.runOps s ops).count = 0 → ops.getLast? = some RefOp.dec) := by
  induction ops with
  | nil =>
    intro s hc _
    refine ⟨by simp [Str.runOps, countOp], ?_, ?_⟩
    · rw [Str.runOps, if_neg (by omega)]
      omega
    · intro h
      rw [Str.runOps] at h
      exact absurd h (by omega)
  | cons op ops ih =>
    intro s hc hlive
    cases ops with
    | nil =>
      cases op with
      | inc =>
        have h1 : (Str.runOps s [RefOp.inc]).count = s.count + 1 := rfl
        refine ⟨?_, ?_, ?_⟩
        · rw [h1]; simp [countOp]
        · rw [h1, if_neg (by omega)]
          rfl
        · intro h
          rw [h1] at h
          exact absurd h (by omega)
      | dec =>
        have h1 : (Str.runOps s [RefOp.dec]).count = s.count - 1 := Str.refDecU_count s
        refine ⟨?_, ?_, fun _ => rfl⟩
        · rw [h1]; simp [countOp]
        · show (Str.refDecU s).destroyed = _
          rw [Str.refDecU_destroyed]
          congr 1
          rw [show (Str.runOps s [RefOp.dec]).count = (Str.refDecU s).count from rfl,
            Str.refDecU_count]
    | cons x xs =>
      have hs1 : Str.runOps s ((op :: x :: xs).take 1) = Str.stepOp s op := rfl
      have hlive1 : 0 < (Str.stepOp s op).count := by
        have := hlive 1 (by simp)
        rwa [hs1] at this
      have hnd : (Str.stepOp s op).destroyed = s.destroyed := by
        cases op with
        | inc => rfl
        | dec =>
          have hlv : 0 < s.count - 1 := by
            have h := hlive1
            simp only [Str.stepOp] at h
            rwa [Str.refDecU_count] at h
          show (Str.refDecU s).destroyed = s.destroyed
          rw [Str.refDecU_destroyed, if_neg (by omega)]
          omega
      have hrw : ∀ l, Str.runOps s (op :: l) = Str.runOps (Str.stepOp s op) l := fun l => rfl
      have hlive2 : ∀ k < (x :: xs).length,
          0 < (Str.runOps (Str.stepOp s op) ((x :: xs).take k)).count := by
        intro k hk
        have := hlive (k + 1) (by simpa using hk)
        rwa [show (op :: x :: xs).take (k + 1) = op :: (x :: xs).take k from rfl, hrw] at this
      obtain ⟨ihc, ihd, ihl⟩ := ih (Str.stepOp s op) hlive1 hlive2
      have hstep : (Str.stepOp s op).count =
          s.count + (if op = RefOp.inc then 1 else 0) - (if op = RefOp.dec then 1 else 0) := by
        cases op with
        | inc => simp [Str.stepOp, Str.refInc]
        | dec => simp [Str.stepOp, Str.refDecU_count]
      refine ⟨?_, ?_, ?_⟩
      · rw [hrw, ihc, hstep]
        cases op <;> simp [countOp] <;> ring
      · rw [hrw, ihd, hnd]
      · intro h
        rw [hrw] at h
        rw [List.getLast?_cons_cons]
        exact ihl h

/-- Claim C6: for a SharedCounted (string) value with initial count `c0`,
    after any sequence of N handle copy constructions (`_RefInc`) and M
    handle destructions or reassignments (`_RefDec`) during which the
    value stays live, the count equals `c0 + N - M`; the value is
    destroyed exactly once, exactly when a decrement makes the count
    reach zero (immediately, by the `delete this` inside `_RefDec`),
    and not otherwise. -/
theorem c6_shared_count_algebra (c0 : Int) (ops : List RefOp)
    (hc0 : 0 < c0)
    (hlive : ∀ k < ops.length,
      0 < (Str.runOps {count := c0, destroyed := 0} (ops.take k)).count) :
    (Str.runOps {count := c0, destroyed := 0} ops).count =
      c0 + countOp RefOp.inc ops - countOp RefOp.dec ops ∧
    (Str.runOps {count := c0, destroyed := 0} ops).destroyed =
      (if (Str.runOps {count := c0, destroyed := 0} ops).count = 0 then 1 else 0) ∧
    ((Str.runOps {count := c0, destroyed := 0} ops).count = 0 →
      ops.getLast? = some RefOp.dec) := by
  obtain ⟨h1, h2, h3⟩ := Str.runOps_spec ops {count := c0, destroyed := 0} hc0 hlive
  exact ⟨h1, by simpa using h2, h3⟩

theorem c6_witness :
    (Str.runOps {count := 1, destroyed := 0} [RefOp.inc, RefOp.dec, RefOp.dec]).count =
      1 + countOp RefOp.inc [RefOp.inc, RefOp.dec, RefOp.dec] -
        countOp RefOp.dec [RefOp.inc, RefOp.dec, RefOp.dec] ∧
    (Str.runOps {count := 1, destroyed := 0} [RefOp.inc, RefOp.dec, RefOp.dec]).destroyed = 1 ∧
    [RefOp.inc, RefOp.dec, RefOp.dec].getLast? = some RefOp.dec := by
  obtain ⟨h1, h2, h3⟩ :=
    c6_shared_count_algebra 1 [RefOp.inc, RefOp.dec, RefOp.dec] (by decide) (by decide)
  exact ⟨h1, by rw [h2]; decide, h3 (by decide)⟩

/-- Claim C8: `Take` on an `_Own` or `_OwnRef` pointer returns the held
    handle and nulls the source without destroying the value; destroying
    the nulled source afterwards is a no-op, and the moved-out value is
    destroyed exactly once by its new owner.  For `_OwnRef` with a string
    pointee, `Take` runs the `_OwnSub` hook (a pure decrement), the
    matching constructor increment of the new owner restores the count,
    and only the destruction of the new owner deletes the value. -/
theorem c8_take_transfer (o : _Own) (ow : _OwnRef) (v : Str) :
    (_Own.take o = (o.p, {p := 0})) ∧
    (_Own.dtor (_Own.take o).2 = []) ∧
    (o.p ≠ 0 →
      _Own.dtor (_Own.take o).2 ++ _Own.dtor (_Own.mk0 (_Own.take o).1) = [o.p]) ∧
    ((_OwnRef.takeStr ow v).2.2.destroyed = v.destroyed) ∧
    (ow.p ≠ 0 → v.count = 1 →
      (_OwnRef.dtorStr (_OwnRef.takeStr ow v).2.1
        (_OwnRef.mkStr (_OwnRef.takeStr ow v).1 (_OwnRef.takeStr ow v).2.2).2).destroyed
        = v.destroyed ∧
      (_OwnRef.dtorStr
        (_OwnRef.mkStr (_OwnRef.takeStr ow v).1 (_OwnRef.takeStr ow v).2.2).1
        (_OwnRef.dtorStr (_OwnRef.takeStr ow v).2.1
          (_OwnRef.mkStr (_OwnRef.takeStr ow v).1 (_OwnRef.takeStr ow v).2.2).2)).destroyed
        = v.destroyed + 1) := by
  refine ⟨rfl, rfl, ?_, ?_, ?_⟩
  · intro h
    simp [_Own.take, _Own.dtor, _Own.mk0, deleteLog, h]
  · rw [_OwnRef.takeStr]
    split <;> simp [Str.ownSub, Str.decU]
  · intro h hv
    constructor
    · simp [_OwnRef.takeStr, _OwnRef.dtorStr, _OwnRef.mkStr, h, Str.ownSub, Str.decU,
        Str.refInc, Str.refDecU]
    · simp [_OwnRef.takeStr, _OwnRef.dtorStr, _OwnRef.mkStr, h, hv, Str.ownSub, Str.decU,
        Str.refInc, Str.refDecU]

theorem c8_witness :
    _Own.take {p := 5} = (5, {p := 0}) ∧
    _Own.dtor (_Own.take {p := 5}).2 = [] ∧
    _Own.dtor (_Own.take ({p := 5} : _Own)).2 ++
      _Own.dtor (_Own.mk0 (_Own.take ({p := 5} : _Own)).1) = [5] ∧
    (_OwnRef.dtorStr
      (_OwnRef.mkStr (_OwnRef.takeStr {p := 7} {count := 1, destroyed := 0}).1
        (_OwnRef.takeStr {p := 7} {count := 1, destroyed := 0}).2.2).1
      (_OwnRef.dtorStr (_OwnRef.takeStr ({p := 7} : _OwnRef) {count := 1, destroyed := 0}).2.1
        (_OwnRef.mkStr (_OwnRef.takeStr ({p := 7} : _OwnRef) {count := 1, destroyed := 0}).1
          (_OwnRef.takeStr ({p := 7} : _OwnRef) {count := 1, destroyed := 0}).2.2).2)).destroyed
      = 1 := by
  obtain ⟨h1, h2, h3, _, h5⟩ :=
    c8_take_transfer {p := 5} {p := 7} {count := 1, destroyed := 0}
  exact ⟨h1, h2, h3 (by decide), (h5 (by decide) (by decide)).2⟩

/-- A handle event against a global string: a handle starts referencing
    the string (copy construction or reassignment onto it, running
    `_RefInc`) or a live handle stops referencing it (destruction or
    reassignment away, running `_RefDec`). -/
inductive HOp
  | attach
  | detach
deriving DecidableEq

/-- The string state together with the number of live handles on it. -/
structure HState where
  s : Str
  live : Nat
deriving DecidableEq

/-- One handle event. -/
def HState.step (st : HState) : HOp → HState
  | HOp.attach => {s := Str.refInc st.s, live := st.live + 1}
  | HOp.detach => {s := Str.refDecU st.s, live := st.live - 1}

/-- A sequence of handle events. -/
def HState.run (st : HState) : List HOp → HState
  | [] => st
  | op :: ops => HState.run (st.step op) ops

/-- A balanced event sequence: every detach matches an earlier attach,
    so it only ever releases a live handle. -/
def hvalid : Nat → List HOp → Bool
  | _, [] => true
  | l, HOp.attach :: ops => hvalid (l + 1) ops
  | l, HOp.detach :: ops => decide (0 < l) && hvalid (l - 1) ops

theorem HState.run_keeps_global (ops : List HOp) : ∀ (st : HState),
    hvalid st.live ops = true → st.s.count = 1 + st.live → st.s.destroyed = 0 →
    (st.run ops).s.destroyed = 0 ∧ (st.run ops).s.count = 1 + (st.run ops).live := by
  induction ops with
  | nil =>
    intro st _ hcount hdes
    exact ⟨hdes, hcount⟩
  | cons op ops ih =>
    intro st hv hcount hdes
    cases op with
    | attach =>
      rw [hvalid] at hv
      refine ih (st.step HOp.attach) hv ?_ hdes
      show (Str.refInc st.s).count = 1 + ((st.live + 1 : Nat) : Int)
      rw [Str.refInc]
      show st.s.count + 1 = _
      omega
    | detach =>
      rw [hvalid] at hv
      rcases Bool.and_eq_true_iff.mp hv with ⟨hl, hv2⟩
      have hl2 : 0 < st.live := of_decide_eq_true hl
      refine ih (st.step HOp.detach) hv2 ?_ ?_
      · show (Str.refDecU st.s).count = 1 + ((st.live - 1 : Nat) : Int)
        rw [Str.refDecU_count, hcount]
        omega
      · show (Str.refDecU st.s).destroyed = 0
        rw [Str.refDecU_destroyed, hdes, if_neg (by rw [hcount]; omega)]

/-- Claim C10: each of the four global strings (the default ToString
    placeholder, the empty string, and the Boolean True and False texts)
    is constructed with its reference count pre-incremented to 1; under
    any balanced sequence of handle copy constructions, reassignments and
    destructions the count stays positive (it always exceeds the live
    handle total by one), so the global is never destroyed. -/
theorem c10_global_strings (ops : List HOp) (hv : hvalid 0 ops = true) :
    objectString.count = 1 ∧ emptyString.count = 1 ∧
    trueString.count = 1 ∧ falseString.count = 1 ∧
    (∀ g ∈ [objectString, emptyString, trueString, falseString],
      (HState.run {s := g, live := 0} ops).s.destroyed = 0 ∧
      0 < (HState.run {s := g, live := 0} ops).s.count) := by
  refine ⟨rfl, rfl, rfl, rfl, ?_⟩
  intro g hg
  have hgv : g = GlobalString.new := by
    simp only [List.mem_cons, List.mem_singleton] at hg
    rcases hg with h | h | h | h | h
    all_goals first
      | (rw [h]; rfl)
      | simp at h
  obtain ⟨h1, h2⟩ := HState.run_keeps_global ops {s := g, live := 0} (by simpa using hv)
    (by rw [hgv]; rfl) (by rw [hgv]; rfl)
  refine ⟨h1, ?_⟩
  rw [h2]
  positivity

theorem c10_witness :
    (HState.run {s := objectString, live := 0}
      [HOp.attach, HOp.attach, HOp.detach, HOp.detach]).s.destroyed = 0 ∧
    0 < (HState.run {s := objectString, live := 0}
      [HOp.attach, HOp.attach, HOp.detach, HOp.detach]).s.count := by
  have h := c10_global_strings [HOp.attach, HOp.attach, HOp.detach, HOp.detach] (by decide)
  exact h.2.2.2.2 objectString (by simp)

/-- Claim C1, evaluated at the failing input: a fresh pool and a request
    of 10000 bytes (above the whole-block data capacity, with free space
    above Threshold).  The value is individually heap-allocated and the
    placeholder record is placed inside the arena, as claimed; but the
    record the code constructs is an `_Own<Object>`, which is not an
    `Object` and carries no virtual `_Destroy1` / `_Destroy2`, so the
    teardown scan, which dispatches `_Destroy1` virtually on every record
    (reading a vtable pointer where the placeholder stores its `p_`
    field), has no defined result on this pool — in a diagnostic build or
    not.  The unused class `PoolObject` implements exactly the destroy
    protocol the claim describes for the placeholder. -/
theorem c1_escape_placeholder_bug :
    BlockSize - headerSize < 10000 ∧
    Pool.Alloc Pool.init 10000 =
      some ({ blocks := [{first := BlockSize - sizeofOwn, recs := [PRec.ownPh 0 0]}],
              nextSerial := 1, nextEscape := 1 }, AllocOutcome.escaped 0) ∧
    PRec.isObj (PRec.ownPh 0 0) = false ∧
    Pool.teardown true false
      { blocks := [{first := BlockSize - sizeofOwn, recs := [PRec.ownPh 0 0]}],
        nextSerial := 1, nextEscape := 1 } = none ∧
    Pool.teardown false false
      { blocks := [{first := BlockSize - sizeofOwn, recs := [PRec.ownPh 0 0]}],
        nextSerial := 1, nextEscape := 1 } = none := by
  decide

/-- Claim C2 counterexample: with 300 free bytes (at or above Threshold)
    in a well-formed block, a request of 400 bytes — far below the whole
    block data capacity of `BlockSize - headerSize` bytes — is still
    individually heap-allocated with an in-arena placeholder, refuting
    the exactly-when-the-request-exceeds-an-entire-block reading. -/
theorem c2_counterexample :
    ({ first := headerSize + 300, recs := [PRec.obj 0 7876] } : PoolBlock).wfB ∧
    400 ≤ BlockSize - headerSize ∧
    Pool.Alloc { blocks := [{first := headerSize + 300, recs := [PRec.obj 0 7876]}], nextSerial := 1, nextEscape := 0 } 400 =
      some ({ blocks := [{first := headerSize + 300 - sizeofOwn, recs := [PRec.ownPh 1 0, PRec.obj 0 7876]}], nextSerial := 2, nextEscape := 1 }, AllocOutcome.escaped 0) := by
  refine ⟨⟨by decide, by decide, by decide⟩, by decide, by decide⟩

/-- Claim C2 (amended): with a request of `n` bytes against the top block
    of the pool, writing `free` for its free byte count
    (`first_ - data_`): if `n ≤ free`, the allocation is served by
    decrementing the high-water mark by exactly `n`; if `free < n` and
    `free < Threshold`, a fresh full-size block is pushed and the request
    retried there (served by a bump when it fits the data area of a fresh
    block, escaping otherwise); and the individual heap allocation with
    in-arena `_Own<Object>` placeholder is performed exactly when
    `free < n` and either `Threshold ≤ free` or `n` exceeds the data
    capacity `BlockSize - headerSize` of an entire fresh block — so not
    only when the request exceeds an entire block. -/
theorem c2_alloc_cases (P : Pool) (b : PoolBlock) (rest : List PoolBlock) (n : Nat)
    (hb : P.blocks = b :: rest) :
    (n ≤ b.first - headerSize →
      Pool.Alloc P n = some ({ blocks := {first := b.first - n, recs := PRec.obj P.nextSerial n :: b.recs} :: rest, nextSerial := P.nextSerial + 1, nextEscape := P.nextEscape }, AllocOutcome.pooled)) ∧
    (b.first - headerSize < n → b.first - headerSize < Threshold →
      n ≤ BlockSize - headerSize →
      Pool.Alloc P n = some ({ blocks := {first := BlockSize - n, recs := [PRec.obj P.nextSerial n]} :: b :: rest, nextSerial := P.nextSerial + 1, nextEscape := P.nextEscape }, AllocOutcome.pooled)) ∧
    (b.first - headerSize < n → b.first - headerSize < Threshold →
      BlockSize - headerSize < n →
      Pool.Alloc P n = some ({ blocks := {first := BlockSize - sizeofOwn, recs := [PRec.ownPh P.nextSerial P.nextEscape]} :: b :: rest, nextSerial := P.nextSerial + 1, nextEscape := P.nextEscape + 1 }, AllocOutcome.escaped P.nextEscape)) ∧
    (b.first - headerSize < n → Threshold ≤ b.first - headerSize →
      Pool.Alloc P n = some ({ blocks := {first := b.first - sizeofOwn, recs := PRec.ownPh P.nextSerial P.nextEscape :: b.recs} :: rest, nextSerial := P.nextSerial + 1, nextEscape := P.nextEscape + 1 }, AllocOutcome.escaped P.nextEscape)) ∧
    (∀ P2 out, Pool.Alloc P n = some (P2, out) →
      ((∃ id, out = AllocOutcome.escaped id) ↔
        (b.first - headerSize < n ∧
          (Threshold ≤ b.first - headerSize ∨ BlockSize - headerSize < n)))) := by
  refine ⟨Pool.Alloc_fits P b rest n hb,
    Pool.Alloc_newBlock_fits P b rest n hb,
    Pool.Alloc_newBlock_escapes P b rest n hb,
    Pool.Alloc_escapes P b rest n hb, ?_⟩
  intro P2 out hPA
  by_cases h1 : n ≤ b.first - headerSize
  · rw [Pool.Alloc_fits P b rest n hb h1] at hPA
    simp only [Option.some.injEq, Prod.mk.injEq] at hPA
    constructor
    · intro ⟨id, hid⟩
      rw [← hPA.2] at hid
      exact absurd hid (by simp)
    · intro ⟨hlt, _⟩
      omega
  · push_neg at h1
    by_cases h2 : b.first - headerSize < Threshold
    · by_cases h3 : n ≤ BlockSize - headerSize
      · rw [Pool.Alloc_newBlock_fits P b rest n hb h1 h2 h3] at hPA
        simp only [Option.some.injEq, Prod.mk.injEq] at hPA
        constructor
        · intro ⟨id, hid⟩
          rw [← hPA.2] at hid
          exact absurd hid (by simp)
        · intro ⟨_, hor⟩
          rcases hor with h | h <;> omega
      · push_neg at h3
        rw [Pool.Alloc_newBlock_escapes P b rest n hb h1 h2 h3] at hPA
        simp only [Option.some.injEq, Prod.mk.injEq] at hPA
        exact ⟨fun _ => ⟨h1, Or.inr h3⟩, fun _ => ⟨P.nextEscape, hPA.2.symm⟩⟩
    · push_neg at h2
      rw [Pool.Alloc_escapes P b rest n hb h1 h2] at hPA
      simp only [Option.some.injEq, Prod.mk.injEq] at hPA
      exact ⟨fun _ => ⟨h1, Or.inl h2⟩, fun _ => ⟨P.nextEscape, hPA.2.symm⟩⟩

theorem c2_witness :
    Pool.Alloc Pool.init 100 =
      some ({ blocks := [{first := BlockSize - 100, recs := [PRec.obj 0 100]}],
              nextSerial := 1, nextEscape := 0 }, AllocOutcome.pooled) :=
  (c2_alloc_cases Pool.init freshBlock [] 100 rfl).1 (by decide)

/-- The pool reached from a fresh pool by two bump allocations of 100 and
    200 bytes: both records sit in the first block, the 200-byte record
    (serial 1) below the 100-byte record (serial 0). -/
def poolTwo : Pool :=
  { blocks := [{first := BlockSize - 300, recs := [PRec.obj 1 200, PRec.obj 0 100]}],
    nextSerial := 2, nextEscape := 0 }

/-- Claim C3 counterexample: after allocating object 0 then object 1, the
    first destruction pass visits object 1 before object 0 — the walk
    starts at the high-water mark, where the most recent allocation sits —
    so phase-1 finalization runs in reverse allocation order, not in
    allocation order. -/
theorem c3_counterexample :
    Pool.runAllocs Pool.init [100, 200] = some poolTwo ∧
    Pool.pass1 true false poolTwo = some [DEvent.d1 1, DEvent.d1 0] ∧
    [DEvent.d1 1, DEvent.d1 0] ≠ [DEvent.d1 0, DEvent.d1 1] := by
  decide

/-- Claim C3 (amended): during teardown of a pool reached by allocation
    from a fresh pool, phase 1 walks blocks from most recently created to
    oldest; within each block it walks from the recorded first-object
    offset, advancing by each record footprint, exactly covering the
    records up to the block end; it invokes `_Destroy1` on each record
    exactly once; and the resulting finalization order is the reverse of
    allocation order (creation serials strictly decreasing). -/
theorem c3_phase1_reverse_alloc_order (sizes : List Nat) (P : Pool)
    (hpos : ∀ n ∈ sizes, 0 < n)
    (hrun : Pool.runAllocs Pool.init sizes = some P)
    (hobj : ∀ r ∈ P.records, r.isObj = true) :
    (∀ b ∈ P.blocks,
      scanBlockAux b.recs b.first BlockSize = (offsets b.first b.recs).zip b.recs ∧
      b.first + (b.recs.map PRec.size).sum = BlockSize) ∧
    Pool.pass1 true false P = some (P.records.map (fun r => DEvent.d1 r.serial)) ∧
    List.Pairwise (fun a b => b < a) (P.records.map PRec.serial) := by
  obtain ⟨hne, hwf, hpw, hbd⟩ :=
    Pool.runAllocs_inv sizes Pool.init P Pool.init_Inv hpos hrun
  have hobj2 : ∀ b ∈ P.blocks, ∀ r ∈ b.recs, r.isObj = true := by
    intro b hbm r hr
    exact hobj r (List.mem_flatten.mpr ⟨b.recs, List.mem_map.mpr ⟨b, hbm, rfl⟩, hr⟩)
  refine ⟨?_, ?_, hpw⟩
  · intro b hbm
    obtain ⟨h1, h2, h3⟩ := hwf b hbm
    exact ⟨scanBlockAux_filled b.recs b.first BlockSize h3 h2, h2⟩
  · exact pass1Aux_obj P.blocks hwf hobj2 0

theorem c3_witness :
    Pool.pass1 true false poolTwo =
      some (poolTwo.records.map (fun r => DEvent.d1 r.serial)) ∧
    List.Pairwise (fun a b => b < a) (poolTwo.records.map PRec.serial) := by
  have h := c3_phase1_reverse_alloc_order [100, 200] poolTwo (by decide) (by decide) (by decide)
  exact ⟨h.2.1, h.2.2⟩

/-- Claim C4: in a diagnostic (MEMORY_SAFE, not exiting) teardown of a
    well-formed pool of protocol-carrying records, the full event trace
    is the whole phase-1 pass followed by the whole phase-2 pass, so
    phase 1 on every object completes before phase 2 begins on it (the
    second pass contains no `_Destroy1` event); within phase 2, the
    sentinel check of every record precedes the release of its block
    backing storage; and the check itself accepts exactly a count that
    settled at the PendingDestroy sentinel, a fatal contract violation
    otherwise. -/
theorem c4_two_phase_check (P : Pool)
    (hwf : ∀ b ∈ P.blocks, b.wfB)
    (hobj : ∀ b ∈ P.blocks, ∀ r ∈ b.recs, r.isObj = true) :
    Pool.teardown true false P =
      some ((P.records.map (fun r => DEvent.d1 r.serial)) ++ pass2Shape 0 P.blocks) ∧
    (∀ e ∈ pass2Shape 0 P.blocks, ∀ s, e ≠ DEvent.d1 s) ∧
    (∀ i b, P.blocks.get? i = some b → ∀ r ∈ b.recs,
      ∃ u v, pass2Shape 0 P.blocks = u ++ DEvent.check r.serial :: v ∧
        DEvent.freeBlock i ∈ v) ∧
    (∀ c : Int,
      Obj.checkDeferredDestroy false {count := c} = Res.ok () ↔ c = PendingDestroy) := by
  refine ⟨?_, pass2Shape_no_d1 P.blocks 0, ?_, ?_⟩
  · rw [Pool.teardown, if_pos (by simp)]
    rw [show Pool.pass1 true false P = pass1Aux true false 0 P.blocks from rfl,
      pass1Aux_obj P.blocks hwf hobj 0,
      show Pool.pass2 P = pass2Aux 0 P.blocks from rfl,
      pass2Aux_obj P.blocks hwf hobj 0]
    rfl
  · intro i b hget r hr
    obtain ⟨u, v, huv, hv⟩ := pass2Shape_check_before_free P.blocks 0 i b hget r hr
    rw [Nat.zero_add] at hv
    exact ⟨u, v, huv, hv⟩
  · intro c
    rw [Obj.checkDeferredDestroy]
    by_cases hc : c = PendingDestroy
    · rw [if_pos (Or.inr hc)]
      simp [hc]
    · rw [if_neg (by simp [hc])]
      simp [hc]

theorem c4_witness :
    Pool.teardown true false poolTwo =
      some (poolTwo.records.map (fun r => DEvent.d1 r.serial) ++
        pass2Shape 0 poolTwo.blocks) :=
  (c4_two_phase_check poolTwo (by decide) (by decide)).1
